import Mathlib

/-!
# Verification of the Crawl-Streamlit core against its specification

Shallow embedding of the repository's algorithmic core:

* `src/utils/data_utils.py` — the deduplication key resolver
  (`is_duplicate_venue`) and the completeness helper (`is_complete_venue`);
* `src/crawler_logic.py` — the pagination-and-extraction orchestrator
  (`crawl_venues`): per-page candidate processing (error-marker stripping,
  completeness filter, dedup on `str(venue)`) and the page loop with its
  stop conditions;
* `src/utils/selector_utils.py` — the rule-based selector flexibility
  synthesizer (`generate_flexible_selector`) with its two regex scanners,
  delimiter/CamelCase keyword splitting, synonym override and stopword
  fallback.

Python values that can appear in a candidate record (a JSON object parsed by
`json.loads`) are modelled by `PyVal` (null, string, boolean, integer);
a record (dict) is an insertion-ordered association list with unique keys.
Python sets are modelled as lists threaded through the functions: mutation
of a set argument in the source becomes an explicit returned value here.
All recursion is structural (lexical scanners take an explicit fuel equal to
the input length) so that every definition evaluates by kernel reduction.
-/

/-- A JSON-ish Python value as it occurs in a candidate record. -/
inductive PyVal where
  | none
  | str (s : String)
  | bool (b : Bool)
  | int (n : Int)
deriving DecidableEq, Repr

/-- A candidate record: a Python dict, insertion-ordered, keys unique. -/
abbrev Venue := List (String × PyVal)

/-- Python truthiness for the modelled values. -/
def pyTruthy : PyVal → Bool
  | .none => false
  | .str s => !s.isEmpty
  | .bool b => b
  | .int n => n != 0

/-- Python `str()` of a modelled value (as used in f-string interpolation). -/
def pyStr : PyVal → String
  | .none => "None"
  | .str s => s
  | .bool true => "True"
  | .bool false => "False"
  | .int n => toString n

/-- Python `repr()` of a modelled value. Strings are assumed to contain no
quote or escape characters (true of every concrete record considered here),
so `repr` is single-quote wrapping. -/
def pyReprVal : PyVal → String
  | .none => "None"
  | .str s => "'" ++ s ++ "'"
  | .bool true => "True"
  | .bool false => "False"
  | .int n => toString n

/-- `sep.join xs` (Python `str.join`). -/
def joinSep (sep : String) : List String → String
  | [] => ""
  | [s] => s
  | s :: t :: rest => s ++ sep ++ joinSep sep (t :: rest)

/-- Python `str(venue)` for a dict: `\x7b'k1': v1, 'k2': v2\x7d` in insertion
order, values rendered with `repr`. -/
def pyReprVenue (v : Venue) : String :=
  "\x7b" ++ joinSep ", " (v.map (fun p => "'" ++ p.1 ++ "': " ++ pyReprVal p.2)) ++ "\x7d"

/-- Python `venue.get(k)`: `none` when the key is absent. -/
def vget (v : Venue) (k : String) : Option PyVal :=
  match v with
  | [] => Option.none
  | (k', x) :: rest => if k' == k then some x else vget rest k

/-- Python `venue.get(k, "")`: the stored value (even if `None`), or `""`
when the key is absent. -/
def vgetD (v : Venue) (k : String) : PyVal :=
  (vget v k).getD (.str "")

/-- Substring test on character lists (Python's `needle in haystack`). -/
def containsSub (hay needle : List Char) : Bool :=
  needle.isPrefixOf hay ||
    match hay with
    | [] => false
    | _ :: t => containsSub t needle

/-- Python `s.split(sep)` for a one-character separator. -/
def splitOnCharAux (sep : Char) : List Char → List Char → List String
  | [], acc => [String.mk acc.reverse]
  | c :: cs, acc =>
      if c == sep then String.mk acc.reverse :: splitOnCharAux sep cs []
      else splitOnCharAux sep cs (c :: acc)

def splitOnChar (sep : Char) (s : String) : List String :=
  splitOnCharAux sep s.toList []

/-- Python `s.replace(" ", "")`: removes exactly the space character. -/
def removeSpaces (s : String) : String :=
  String.mk (s.toList.filter (fun c => c != ' '))

/-- Python `s.lower()`, restricted to ASCII (all strings here are ASCII). -/
def pyLower (s : String) : String :=
  String.mk (s.toList.map Char.toLower)

/-! ## `src/utils/data_utils.py` -/

/-- The placeholder/blank-image sentinel excluded at priority 2 of
`is_duplicate_venue` (`data_utils.py:33`). -/
def placeholderSentinel : String := "oto.com/2021/images/1x1.png"

/-- Priority 2 of `is_duplicate_venue` (`data_utils.py:33-39`): extract an
identifier token from `image_url`. Returns `some tok` exactly when the
source leaves `unique_id` set to a truthy value after this block: the URL is
a truthy string not containing the sentinel, its final `/`-segment contains
a `.`, and the part before the first `.` is non-empty (the source resets a
falsy extraction back to `None`). A truthy non-string `image_url` would
raise `TypeError` at the `in` test in the source; values here come from the
JSON extraction payload and are strings or null. -/
def imageUrlToken (venue : Venue) : Option String :=
  match vget venue "image_url" with
  | some (.str url) =>
      if !url.isEmpty && !(containsSub url.toList placeholderSentinel.toList) then
        let parts := splitOnChar '/' url
        let lastPart := parts.getLastD ""
        if lastPart.toList.any (fun c => c == '.') then
          let tok := (splitOnChar '.' lastPart).headD ""
          if tok.isEmpty then Option.none else some tok
        else Option.none
      else Option.none
  | _ => Option.none

/-- Priority 3 of `is_duplicate_venue` (`data_utils.py:42-51`): the composite
key `f"{title\x7d|{brand\x7d|{model\x7d|{year\x7d|{km\x7d"` with spaces removed and
lowercased. `title`/`brand`/`model` are interpolated as stored (a stored
null renders as `"None"`); `year`/`km` pass through `str()` explicitly. -/
def compositeKey (venue : Venue) : String :=
  pyLower (removeSpaces
    (pyStr (vgetD venue "title") ++ "|" ++ pyStr (vgetD venue "brand") ++ "|" ++
     pyStr (vgetD venue "model") ++ "|" ++ pyStr (vgetD venue "year") ++ "|" ++
     pyStr (vgetD venue "km")))

/-- The identity-computation part of `is_duplicate_venue`
(`data_utils.py:29-57`), factored out as a pure function. -/
def identityOf (venue : Venue) : PyVal :=
  let u0 := (vget venue "listing_id").getD .none
  if pyTruthy u0 then u0
  else
    match imageUrlToken venue with
    | some tok => .str tok
    | Option.none =>
        let c := compositeKey venue
        if c.isEmpty then .str (pyReprVenue venue) else .str c

/-- `is_duplicate_venue` (`data_utils.py:27-64`), translated statement by
statement: the chained reassignments of `unique_id` (lines 29-57) followed by
the check-then-insert on `seen_ids` (lines 59-64). The Python set argument,
mutated in place by `seen_ids.add`, is threaded as the second component of
the result. -/
def is_duplicate_venue (venue : Venue) (seen_ids : List PyVal) : Bool × List PyVal :=
  -- line 29: unique_id = venue.get("listing_id")
  let u0 := (vget venue "listing_id").getD .none
  -- lines 33-39: extraction from image_url when unique_id is falsy
  let u1 : PyVal :=
    if pyTruthy u0 then u0
    else match imageUrlToken venue with
      | some tok => .str tok
      | Option.none => u0
  -- lines 42-51: composite key when still falsy
  let u2 : PyVal := if pyTruthy u1 then u1 else .str (compositeKey venue)
  -- lines 55-57: full string representation when still falsy
  let u3 : PyVal := if pyTruthy u2 then u2 else .str (pyReprVenue venue)
  -- lines 60-64: check duplication, add to the set when new
  if seen_ids.contains u3 then (true, seen_ids)
  else (false, u3 :: seen_ids)

/-- `is_complete_venue` (`data_utils.py:67-68`): key presence only. -/
def is_complete_venue (venue : Venue) (required_keys : List String) : Bool :=
  required_keys.all (fun k => (vget venue k).isSome)

/-! ## `src/crawler_logic.py`: per-candidate processing and the page loop -/

/-- `crawler_logic.py:174-175`: drop the `error` marker when it is exactly
`False` (`is False` in the source is an identity test: only the boolean
`False` qualifies). -/
def stripFalseError (venue : Venue) : Venue :=
  if vget venue "error" == some (.bool false) then
    venue.filter (fun p => p.1 != "error")
  else venue

/-- `crawler_logic.py:178`: `all(key in venue and venue[key] for key in keys_list)`. -/
def isCompleteTruthy (keys : List String) (venue : Venue) : Bool :=
  keys.all (fun k =>
    match vget venue k with
    | some x => pyTruthy x
    | Option.none => false)

/-- The per-page candidate loop (`crawler_logic.py:171-183`): strip the
`error=False` marker, keep candidates that pass the completeness filter and
whose `str(venue)` is not in the seen-identity set, inserting accepted
identities into the set. Returns `(page_venues, seen_ids)`. -/
def processPageVenues (keys : List String) : List Venue → List String → List Venue × List String
  | [], seen => ([], seen)
  | v :: rest, seen =>
      let v' := stripFalseError v
      if isCompleteTruthy keys v' then
        let vid := pyReprVenue v'
        if seen.contains vid then processPageVenues keys rest seen
        else
          let r := processPageVenues keys rest (vid :: seen)
          (v' :: r.1, r.2)
      else processPageVenues keys rest seen

/-- What one page's fetch/extraction/parse pipeline produced, as seen by the
loop body (`crawler_logic.py:129-168`): failure of the render-only fetch,
failure of the extraction fetch, a JSON decode error, or the parsed list of
candidate records. -/
inductive PageFetch where
  | fetchFail
  | extractFail
  | parseFail
  | parsed (data : List Venue)
deriving DecidableEq

/-- The reason the `while True` loop ended (each `break` site, or fuel). -/
inductive StopReason where
  | pageLimitReached
  | fetchFailed
  | extractionFailed
  | payloadMalformed
  | noCandidates
  | noNewVenues
  | outOfFuel
deriving DecidableEq, Repr

/-- Everything a run of the loop yields: the accumulated records, the stop
reason, the page numbers actually fetched (in order), and the total number
of candidate records across all parsed pages. -/
structure CrawlOutcome where
  venues : List Venue
  reason : StopReason
  fetched : List Nat
  candTotal : Nat
deriving DecidableEq

/-- The run configuration relevant to the loop: the cleaned required-key
list, and the page-limit pair (`use_page_limit`, `max_pages`;
`max_pages=None` is `Option.none`). -/
structure CrawlConfig where
  keysList : List String
  usePageLimit : Bool
  maxPages : Option Nat
deriving DecidableEq

/-- `crawler_logic.py:121`: `use_page_limit and max_pages and page_number > max_pages`
(`max_pages` of `None` or `0` is falsy and disables the limit). -/
def limitHit (cfg : CrawlConfig) (pageNumber : Nat) : Bool :=
  cfg.usePageLimit &&
    match cfg.maxPages with
    | some m => (m != 0) && decide (pageNumber > m)
    | Option.none => false

/-- The `while True` loop of `crawl_venues` (`crawler_logic.py:119-193`),
driven by an oracle `pages` giving each page's fetch/extraction outcome.
`fuel` bounds the number of iterations (the source loop has no such bound
and can run forever; every theorem below holds for every fuel). -/
def crawlLoop (cfg : CrawlConfig) (pages : Nat → PageFetch) :
    Nat → Nat → List Venue → List String → CrawlOutcome
  | 0, _, acc, _ => ⟨acc, .outOfFuel, [], 0⟩
  | fuel + 1, n, acc, seen =>
      if limitHit cfg n then ⟨acc, .pageLimitReached, [], 0⟩
      else
        match pages n with
        | .fetchFail => ⟨acc, .fetchFailed, [n], 0⟩
        | .extractFail => ⟨acc, .extractionFailed, [n], 0⟩
        | .parseFail => ⟨acc, .payloadMalformed, [n], 0⟩
        | .parsed [] => ⟨acc, .noCandidates, [n], 0⟩
        | .parsed (d :: ds) =>
            let r := processPageVenues cfg.keysList (d :: ds) seen
            if r.1.isEmpty then ⟨acc, .noNewVenues, [n], (d :: ds).length⟩
            else
              let rec' := crawlLoop cfg pages fuel (n + 1) (acc ++ r.1) r.2
              ⟨rec'.venues, rec'.reason, n :: rec'.fetched,
               (d :: ds).length + rec'.candTotal⟩

/-- A whole run: page number starts at 1, accumulator and seen set empty
(`crawler_logic.py:105-107`). -/
def crawlTop (cfg : CrawlConfig) (pages : Nat → PageFetch) (fuel : Nat) : CrawlOutcome :=
  crawlLoop cfg pages fuel 1 [] []

/-! ## `src/utils/selector_utils.py` -/

/-- `STOPWORDS` (`selector_utils.py:6-11`), the Python set as a list. -/
def STOPWORDS : List String :=
  ["wrapper", "container", "main", "active", "button", "btn", "icon", "image",
   "img", "media", "content", "holder", "inner", "outer", "slide", "shadow",
   "light", "dark", "style", "layout", "grid", "row", "col", "link", "nav",
   "filter", "used", "splide", "cell"]

/-- `KEYWORD_SYNONYMS` (`selector_utils.py:15-20`). -/
def KEYWORD_SYNONYMS : List (String × List String) :=
  [("listing", ["ListingCell", "PropertyCard", "listing-item"]),
   ("product", ["item", "product-card", "prd"]),
   ("search", ["result-item", "search-result"]),
   ("card", ["panel", "tile", "card-container"])]

/-- `\s` of Python `re` (ASCII part; all selectors here are ASCII). -/
def isPySpace (c : Char) : Bool :=
  c == ' ' || c == '\t' || c == '\n' || c == '\r' || c == '\x0b' || c == '\x0c'

/-- The character class `[a-zA-Z0-9_-]` of the simple-class regex. -/
def isClassChar (c : Char) : Bool :=
  c.isAlpha || c.isDigit || c == '_' || c == '-'

/-- `re.findall(r'\.([a-zA-Z0-9_-]+)', raw)` (`selector_utils.py:128`) as a
left-to-right scanner: at a `.`, capture the maximal run of class characters
after it (if non-empty) and continue after the run. `fuel` bounds the
recursion; each step consumes at least one character, so fuel equal to the
input length is always enough. -/
def findSimpleGo : Nat → List Char → List String
  | 0, _ => []
  | _ + 1, [] => []
  | fuel + 1, c :: cs =>
      if c == '.' then
        let run := cs.takeWhile isClassChar
        if run.isEmpty then findSimpleGo fuel cs
        else String.mk run :: findSimpleGo fuel (cs.dropWhile isClassChar)
      else findSimpleGo fuel cs

def findSimpleClasses (l : List Char) : List String :=
  findSimpleGo l.length l

/-- The lazy capture `(.*?)['"]\]` tail of the attribute regex
(`selector_utils.py:130`): scan for the first quote character followed by
`]`; `.` cannot match a newline, so a newline before that point fails the
attempt. Returns the capture and the remainder after the closing `]`. -/
def scanCaptureQ : List Char → Option (List Char × List Char)
  | [] => Option.none
  | c :: cs =>
      if (c == '\'' || c == '"') && (cs.headD '\x00' == ']') then some ([], cs.tail)
      else if c == '\n' then Option.none
      else
        match scanCaptureQ cs with
        | some (cap, rest) => some (c :: cap, rest)
        | Option.none => Option.none

/-- The `.*?=\s*['"]` middle of the attribute regex: try each `=` in order
(the lazy `.*?` prefers the earliest; it cannot cross a newline); after an
`=`, skip maximal whitespace, require a quote, and hand over to the capture
scanner; on its failure, backtrack to the next `=`. -/
def tryEqSites : List Char → Option (List Char × List Char)
  | [] => Option.none
  | c :: cs =>
      if c == '=' then
        match cs.dropWhile isPySpace with
        | q :: ls =>
            if q == '\'' || q == '"' then
              match scanCaptureQ ls with
              | some r => some r
              | Option.none => tryEqSites cs
            else tryEqSites cs
        | [] => tryEqSites cs
      else if c == '\n' then Option.none
      else tryEqSites cs

/-- One attempt of `\[class\s*.*?=\s*['"](.*?)['"]\]` anchored at the head of
`l`: the literal `[class`, then maximal `\s*`, then the `=`-site search. -/
def matchAttrAt (l : List Char) : Option (List Char × List Char) :=
  if ("[class".toList).isPrefixOf l then
    tryEqSites ((l.drop 6).dropWhile isPySpace)
  else Option.none

/-- `re.findall` driver for the attribute regex (`selector_utils.py:130`):
try a match at every position, continuing after a successful match. A match
consumes at least the seven characters `[class` and `]`, so fuel equal to
the input length is always enough. -/
def findAttrGo : Nat → List Char → List String
  | 0, _ => []
  | _ + 1, [] => []
  | fuel + 1, l@(_ :: cs) =>
      match matchAttrAt l with
      | some (cap, rest) => String.mk cap :: findAttrGo fuel rest
      | Option.none => findAttrGo fuel cs

def findAttrCaptures (l : List Char) : List String :=
  findAttrGo l.length l

/-- Python `class_group.split()` (`selector_utils.py:132`): split on
whitespace runs, dropping empty pieces. -/
def splitWSAux : List Char → List Char → List String
  | [], acc => if acc.isEmpty then [] else [String.mk acc.reverse]
  | c :: cs, acc =>
      if isPySpace c then
        if acc.isEmpty then splitWSAux cs []
        else String.mk acc.reverse :: splitWSAux cs []
      else splitWSAux cs (c :: acc)

def splitPyWS (s : String) : List String :=
  splitWSAux s.toList []

/-- `re.split(r'__|_|-|\s', class_str)` (`selector_utils.py:43`): the
alternation prefers `__` over `_` at the same position; empty pieces are
kept (the caller filters them out). -/
def splitDelimsAux : List Char → List Char → List String
  | [], acc => [String.mk acc.reverse]
  | '_' :: '_' :: cs, acc => String.mk acc.reverse :: splitDelimsAux cs []
  | '_' :: cs, acc => String.mk acc.reverse :: splitDelimsAux cs []
  | '-' :: cs, acc => String.mk acc.reverse :: splitDelimsAux cs []
  | c :: cs, acc =>
      if isPySpace c then String.mk acc.reverse :: splitDelimsAux cs []
      else splitDelimsAux cs (c :: acc)

/-- `re.findall(r'[A-Z]?[a-z]+|[A-Z]+(?=[A-Z]|$)', part)`
(`selector_utils.py:50`): a lowercase run, optionally preceded by one
uppercase letter, is a keyword; otherwise a maximal uppercase run is a
keyword in full at the end of the input, and without its last letter when
followed by more text (the lookahead forces the backtrack, and scanning
resumes at that last letter). Fuel equal to the input length is always
enough: every recursive call drops at least one character. -/
def camelGo : Nat → List Char → List String
  | 0, _ => []
  | _ + 1, [] => []
  | fuel + 1, c :: cs =>
      if c.isLower then
        String.mk (c :: cs.takeWhile Char.isLower) :: camelGo fuel (cs.dropWhile Char.isLower)
      else if c.isUpper then
        if (cs.headD '0').isLower then
          String.mk (c :: cs.takeWhile Char.isLower) :: camelGo fuel (cs.dropWhile Char.isLower)
        else
          let us := cs.takeWhile Char.isUpper
          let rest := cs.dropWhile Char.isUpper
          if us.isEmpty then
            if rest.isEmpty then [String.mk [c]]
            else camelGo fuel cs
          else
            if rest.isEmpty then [String.mk (c :: us)]
            else String.mk (c :: us.dropLast) :: camelGo fuel (us.getLastD 'A' :: rest)
      else camelGo fuel cs

/-- `_split_into_keywords` (`selector_utils.py:40-52`). -/
def splitIntoKeywords (class_str : String) : List String :=
  (((splitDelimsAux class_str.toList []).filter (fun p => !p.isEmpty)).map
    (fun p => camelGo p.toList.length p.toList)).flatten

/-- The `class_strings` collection of `generate_flexible_selector`
(`selector_utils.py:127-132`): simple `.class` captures united with the
whitespace-split attribute captures. The Python value is a set; it is only
consumed through keyword extraction and an emptiness test, both insensitive
to order and multiplicity, so a list models it. -/
def classStrings (raw_selector : String) : List String :=
  findSimpleClasses raw_selector.toList ++
    ((findAttrCaptures raw_selector.toList).map splitPyWS).flatten

/-- `all_keywords_raw` (`selector_utils.py:140-142`). -/
def allKeywordsRaw (raw_selector : String) : List String :=
  ((classStrings raw_selector).map splitIntoKeywords).flatten

/-- `primary_synonyms_found` (`selector_utils.py:144-147`): union of the
synonym lists of every keyword whose lowercase form is a primary key. -/
def primarySynonymsFound (raw_selector : String) : List String :=
  ((allKeywordsRaw raw_selector).map
    (fun k => (List.lookup (pyLower k) KEYWORD_SYNONYMS).getD [])).flatten

/-- The keep-condition of the fallback deconstruction
(`selector_utils.py:154-158`): not a stopword, purely alphabetic, and at
least four characters long. -/
def keepGenericKeyword (k : String) : Bool :=
  !(STOPWORDS.contains (pyLower k)) &&
    (!k.isEmpty && k.toList.all Char.isAlpha) &&
    decide (4 ≤ (pyLower k).length)

/-- `final_selectors` (`selector_utils.py:137-158`): the synonym override
when any primary keyword matched, otherwise the generic deconstruction. -/
def finalSelectors (raw_selector : String) : List String :=
  if (primarySynonymsFound raw_selector).isEmpty then
    (allKeywordsRaw raw_selector).filter keepGenericKeyword
  else primarySynonymsFound raw_selector

/-- One rendered output fragment (`selector_utils.py:163`). -/
def renderFrag (kw : String) : String := "[class*='" ++ kw ++ "']"

/-- Code-point lexicographic comparison on character lists — the order
Python's `sorted` uses on these ASCII strings. -/
def lexLeb : List Char → List Char → Bool
  | [], _ => true
  | _ :: _, [] => false
  | a :: as, b :: bs =>
      if a.toNat < b.toNat then true
      else if b.toNat < a.toNat then false
      else lexLeb as bs

def strLeb (a b : String) : Bool := lexLeb a.toList b.toList

def insertSorted (s : String) : List String → List String
  | [] => [s]
  | t :: ts => if strLeb s t then s :: t :: ts else t :: insertSorted s ts

/-- Python `sorted` on a list of distinct ASCII strings (insertion sort by
code-point order). -/
def sortStrings : List String → List String
  | [] => []
  | s :: ss => insertSorted s (sortStrings ss)

/-- `generate_flexible_selector` (`selector_utils.py:110-163`). The Python
`final_selectors` set becomes a list deduplicated (as rendered fragments —
the rendering is injective) before the sort, so the output is the same
sorted, de-duplicated, comma-joined string the source produces. -/
def generate_flexible_selector (raw_selector : String) : String :=
  if raw_selector.toList.all isPySpace then ""
  else if (classStrings raw_selector).isEmpty then raw_selector
  else if (finalSelectors raw_selector).isEmpty then raw_selector
  else joinSep ", " (sortStrings ((finalSelectors raw_selector).map renderFrag).dedup)

/-! ## Claim-side definition for C2

The priority chain exactly as the claim and spec §4.2 word it, to be
compared with `identityOf`, the translation of the source. "First success
wins" is read as "first non-empty identifier wins", matching branch 1's
explicit "non-empty" and branch 4's "always yields a string" justification. -/

/-- Stated from the claim: branch 2 — "if an image URL is present and is not
the placeholder sentinel, the final '/'-segment of the URL truncated before
its first '.' when that segment contains a '.'" (success = a non-empty
token). -/
def claimImageToken (v : Venue) : Option String :=
  match vget v "image_url" with
  | some (.str url) =>
      if url.isEmpty then Option.none
      else if containsSub url.toList placeholderSentinel.toList then Option.none
      else
        let seg := (splitOnChar '/' url).getLastD ""
        if seg.toList.any (fun c => c == '.') then
          let tok := (splitOnChar '.' seg).headD ""
          if tok.isEmpty then Option.none else some tok
        else Option.none
  | _ => Option.none

/-- Stated from the claim: branch 3 — "a composite of title, brand, model,
year, and km joined with a separator, with all whitespace removed and
lowercased" (whitespace removal being the space-stripping normalization the
spec describes for this key). -/
def claimComposite (v : Venue) : String :=
  pyLower (removeSpaces
    (pyStr (vgetD v "title") ++ "|" ++ pyStr (vgetD v "brand") ++ "|" ++
     pyStr (vgetD v "model") ++ "|" ++ pyStr (vgetD v "year") ++ "|" ++
     pyStr (vgetD v "km")))

/-- Stated from the claim: the whole priority chain, first success wins,
branch 4 being "the full string representation of the record". -/
def claimPriorityChain (v : Venue) : String :=
  let listing : Option String :=
    match vget v "listing_id" with
    | some (.str s) => if s.isEmpty then Option.none else some s
    | _ => Option.none
  match listing with
  | some s => s
  | Option.none =>
      match claimImageToken v with
      | some t => t
      | Option.none =>
          let c := claimComposite v
          if c.isEmpty then pyReprVenue v else c

/-- The `listing_id` field (when present) holds a string or null — true of
every record produced by the extraction schema, whose fields are all typed
`str | None`. A truthy non-string value there would make the source's
identity a non-string object. -/
def listingStrOrNone (v : Venue) : Bool :=
  match vget v "listing_id" with
  | Option.none => true
  | some .none => true
  | some (.str _) => true
  | some _ => false

/-! ## Helper lemmas -/

theorem claimImageToken_eq (v : Venue) : claimImageToken v = imageUrlToken v := by
  unfold claimImageToken imageUrlToken
  cases h : vget v "image_url" with
  | none => rfl
  | some x =>
      cases x with
      | str url =>
          cases he : url.isEmpty <;>
            cases hc : containsSub url.toList placeholderSentinel.toList <;>
              simp [String.toList] at hc ⊢ <;> simp [he, hc]
      | none => rfl
      | bool b => rfl
      | int n => rfl

theorem claimComposite_eq (v : Venue) : claimComposite v = compositeKey v := rfl

theorem imageUrlToken_ne_empty {v : Venue} {tok : String}
    (h : imageUrlToken v = some tok) : tok.isEmpty = false := by
  unfold imageUrlToken at h
  cases hv : vget v "image_url" with
  | none => rw [hv] at h; exact absurd h (by simp)
  | some x =>
      rw [hv] at h
      cases x with
      | str url =>
          simp only at h
          split at h
          · split at h
            · split at h
              · exact absurd h (by simp)
              · simp_all
            · exact absurd h (by simp)
          · exact absurd h (by simp)
      | none => exact absurd h (by simp)
      | bool b => exact absurd h (by simp)
      | int n => exact absurd h (by simp)

/-- The sequentially-reassigned `unique_id` of `is_duplicate_venue` is the
pure `identityOf`. -/
theorem is_duplicate_venue_eq_check_insert (v : Venue) (seen : List PyVal) :
    is_duplicate_venue v seen =
      if seen.contains (identityOf v) then (true, seen)
      else (false, identityOf v :: seen) := by
  simp only [is_duplicate_venue, identityOf]
  cases h0 : pyTruthy ((vget v "listing_id").getD .none) with
  | true => simp [h0]
  | false =>
      cases himg : imageUrlToken v with
      | some tok =>
          have ht : pyTruthy (.str tok) = true := by
            simp [pyTruthy, imageUrlToken_ne_empty himg]
          simp [h0, himg, ht]
      | none =>
          have hcp : pyTruthy (PyVal.str (compositeKey v)) = !(compositeKey v).isEmpty := by
            simp [pyTruthy]
          cases hcomp : (compositeKey v).isEmpty with
          | true => simp [h0, himg, hcp, hcomp]
          | false => simp [h0, himg, hcp, hcomp]

/-! ## Lemmas about the per-page candidate loop -/

theorem processPageVenues_length (keys : List String) (data : List Venue) :
    ∀ seen : List String, (processPageVenues keys data seen).1.length ≤ data.length := by
  induction data with
  | nil => intro seen; simp [processPageVenues]
  | cons v rest ih =>
      intro seen
      simp only [processPageVenues]
      cases hc : isCompleteTruthy keys (stripFalseError v) with
      | false =>
          have := ih seen
          simp only [Bool.false_eq_true, if_false, List.length_cons]
          omega
      | true =>
          cases hm : seen.contains (pyReprVenue (stripFalseError v)) with
          | true =>
              have := ih seen
              simp only [if_true, List.length_cons]
              omega
          | false =>
              have := ih (pyReprVenue (stripFalseError v) :: seen)
              simp only [if_true, Bool.false_eq_true, if_false, List.length_cons]
              omega

theorem processPageVenues_complete (keys : List String) (data : List Venue) :
    ∀ seen : List String, ∀ v ∈ (processPageVenues keys data seen).1,
      isCompleteTruthy keys v = true := by
  induction data with
  | nil => intro seen v hv; simp [processPageVenues] at hv
  | cons w rest ih =>
      intro seen v hv
      simp only [processPageVenues] at hv
      cases hc : isCompleteTruthy keys (stripFalseError w) with
      | false =>
          rw [hc] at hv
          simp only [Bool.false_eq_true, if_false] at hv
          exact ih seen v hv
      | true =>
          rw [hc] at hv
          simp only [if_true] at hv
          cases hm : seen.contains (pyReprVenue (stripFalseError w)) with
          | true =>
              rw [hm] at hv
              simp only [if_true] at hv
              exact ih seen v hv
          | false =>
              rw [hm] at hv
              simp only [Bool.false_eq_true, if_false, List.mem_cons] at hv
              rcases hv with rfl | hv
              · exact hc
              · exact ih _ v hv

theorem processPageVenues_seen_mono (keys : List String) (data : List Venue) :
    ∀ seen : List String, ∀ s ∈ seen, s ∈ (processPageVenues keys data seen).2 := by
  induction data with
  | nil => intro seen s hs; simpa [processPageVenues] using hs
  | cons w rest ih =>
      intro seen s hs
      simp only [processPageVenues]
      cases hc : isCompleteTruthy keys (stripFalseError w) with
      | false => simpa using ih seen s hs
      | true =>
          cases hm : seen.contains (pyReprVenue (stripFalseError w)) with
          | true => simpa using ih seen s hs
          | false =>
              simp only [if_true, Bool.false_eq_true, if_false]
              exact ih _ s (List.mem_cons_of_mem _ hs)

theorem processPageVenues_accepted_in_seen (keys : List String) (data : List Venue) :
    ∀ seen : List String, ∀ v ∈ (processPageVenues keys data seen).1,
      pyReprVenue v ∈ (processPageVenues keys data seen).2 := by
  induction data with
  | nil => intro seen v hv; simp [processPageVenues] at hv
  | cons w rest ih =>
      intro seen v hv
      simp only [processPageVenues] at hv ⊢
      cases hc : isCompleteTruthy keys (stripFalseError w) with
      | false =>
          rw [hc] at hv
          simp only [Bool.false_eq_true, if_false] at hv ⊢
          exact ih seen v hv
      | true =>
          rw [hc] at hv
          simp only [if_true] at hv ⊢
          cases hm : seen.contains (pyReprVenue (stripFalseError w)) with
          | true =>
              rw [hm] at hv
              simp only [if_true] at hv ⊢
              exact ih seen v hv
          | false =>
              rw [hm] at hv
              simp only [Bool.false_eq_true, if_false, List.mem_cons] at hv ⊢
              rcases hv with rfl | hv
              · exact processPageVenues_seen_mono keys rest _ _ (List.mem_cons_self _ _)
              · exact ih _ v hv

theorem processPageVenues_accepted_fresh (keys : List String) (data : List Venue) :
    ∀ seen : List String, ∀ v ∈ (processPageVenues keys data seen).1,
      pyReprVenue v ∉ seen := by
  induction data with
  | nil => intro seen v hv; simp [processPageVenues] at hv
  | cons w rest ih =>
      intro seen v hv
      simp only [processPageVenues] at hv
      cases hc : isCompleteTruthy keys (stripFalseError w) with
      | false =>
          rw [hc] at hv
          simp only [Bool.false_eq_true, if_false] at hv
          exact ih seen v hv
      | true =>
          rw [hc] at hv
          simp only [if_true] at hv
          cases hm : seen.contains (pyReprVenue (stripFalseError w)) with
          | true =>
              rw [hm] at hv
              simp only [if_true] at hv
              exact ih seen v hv
          | false =>
              rw [hm] at hv
              simp only [Bool.false_eq_true, if_false, List.mem_cons] at hv
              rcases hv with rfl | hv
              · intro hmem
                have : seen.contains (pyReprVenue (stripFalseError w)) = true :=
                  List.elem_eq_true_of_mem hmem
                rw [this] at hm; exact absurd hm (by simp)
              · intro hmem
                exact ih _ v hv (List.mem_cons_of_mem _ hmem)

theorem processPageVenues_nodup (keys : List String) (data : List Venue) :
    ∀ seen : List String,
      List.Pairwise (fun a b => pyReprVenue a ≠ pyReprVenue b)
        (processPageVenues keys data seen).1 := by
  induction data with
  | nil => intro seen; simp [processPageVenues]
  | cons w rest ih =>
      intro seen
      simp only [processPageVenues]
      cases hc : isCompleteTruthy keys (stripFalseError w) with
      | false => simpa using ih seen
      | true =>
          cases hm : seen.contains (pyReprVenue (stripFalseError w)) with
          | true => simpa using ih seen
          | false =>
              simp only [if_true, Bool.false_eq_true, if_false]
              refine List.Pairwise.cons ?_ (ih _)
              intro v hv heq
              have hfresh := processPageVenues_accepted_fresh keys rest _ v hv
              exact hfresh (heq ▸ List.mem_cons_self _ _)

/-! ## Lemmas about the page loop -/

theorem crawlLoop_venues_complete (cfg : CrawlConfig) (pages : Nat → PageFetch) :
    ∀ fuel n : Nat, ∀ acc : List Venue, ∀ seen : List String,
      (∀ v ∈ acc, isCompleteTruthy cfg.keysList v = true) →
      ∀ v ∈ (crawlLoop cfg pages fuel n acc seen).venues,
        isCompleteTruthy cfg.keysList v = true := by
  intro fuel
  induction fuel with
  | zero => intro n acc seen hacc v hv; exact hacc v hv
  | succ fuel ih =>
      intro n acc seen hacc v hv
      simp only [crawlLoop] at hv
      cases hl : limitHit cfg n with
      | true =>
          rw [hl] at hv; simp only [if_true] at hv
          exact hacc v hv
      | false =>
          rw [hl] at hv; simp only [Bool.false_eq_true, if_false] at hv
          cases hp : pages n with
          | fetchFail => rw [hp] at hv; exact hacc v hv
          | extractFail => rw [hp] at hv; exact hacc v hv
          | parseFail => rw [hp] at hv; exact hacc v hv
          | parsed data =>
              rw [hp] at hv
              cases data with
              | nil => exact hacc v hv
              | cons d ds =>
                  simp only at hv
                  cases hie : (processPageVenues cfg.keysList (d :: ds) seen).1.isEmpty with
                  | true =>
                      rw [hie] at hv; simp only [if_true] at hv
                      exact hacc v hv
                  | false =>
                      rw [hie] at hv; simp only [Bool.false_eq_true, if_false] at hv
                      refine ih (n + 1) _ _ ?_ v hv
                      intro w hw
                      rcases List.mem_append.mp hw with hw | hw
                      · exact hacc w hw
                      · exact processPageVenues_complete cfg.keysList (d :: ds) seen w hw

theorem crawlLoop_length (cfg : CrawlConfig) (pages : Nat → PageFetch) :
    ∀ fuel n : Nat, ∀ acc : List Venue, ∀ seen : List String,
      (crawlLoop cfg pages fuel n acc seen).venues.length ≤
        acc.length + (crawlLoop cfg pages fuel n acc seen).candTotal := by
  intro fuel
  induction fuel with
  | zero => intro n acc seen; simp [crawlLoop]
  | succ fuel ih =>
      intro n acc seen
      simp only [crawlLoop]
      cases hl : limitHit cfg n with
      | true => simp
      | false =>
          simp only [Bool.false_eq_true, if_false]
          cases hp : pages n with
          | fetchFail => simp
          | extractFail => simp
          | parseFail => simp
          | parsed data =>
              cases data with
              | nil => simp
              | cons d ds =>
                  simp only
                  cases hie : (processPageVenues cfg.keysList (d :: ds) seen).1.isEmpty with
                  | true => simp
                  | false =>
                      simp only [Bool.false_eq_true, if_false]
                      have h1 := ih (n + 1) (acc ++ (processPageVenues cfg.keysList (d :: ds) seen).1)
                        (processPageVenues cfg.keysList (d :: ds) seen).2
                      have h2 := processPageVenues_length cfg.keysList (d :: ds) seen
                      simp only [List.length_append] at h1
                      simp only [List.length_cons] at h2 ⊢
                      omega

theorem crawlLoop_nodup (cfg : CrawlConfig) (pages : Nat → PageFetch) :
    ∀ fuel n : Nat, ∀ acc : List Venue, ∀ seen : List String,
      (∀ v ∈ acc, pyReprVenue v ∈ seen) →
      List.Pairwise (fun a b => pyReprVenue a ≠ pyReprVenue b) acc →
      List.Pairwise (fun a b => pyReprVenue a ≠ pyReprVenue b)
        (crawlLoop cfg pages fuel n acc seen).venues := by
  intro fuel
  induction fuel with
  | zero => intro n acc seen _ hacc; exact hacc
  | succ fuel ih =>
      intro n acc seen hin hacc
      simp only [crawlLoop]
      cases hl : limitHit cfg n with
      | true => simpa using hacc
      | false =>
          simp only [Bool.false_eq_true, if_false]
          cases hp : pages n with
          | fetchFail => exact hacc
          | extractFail => exact hacc
          | parseFail => exact hacc
          | parsed data =>
              cases data with
              | nil => exact hacc
              | cons d ds =>
                  simp only
                  cases hie : (processPageVenues cfg.keysList (d :: ds) seen).1.isEmpty with
                  | true => simpa using hacc
                  | false =>
                      simp only [Bool.false_eq_true, if_false]
                      refine ih (n + 1) _ _ ?_ ?_
                      · intro w hw
                        rcases List.mem_append.mp hw with hw | hw
                        · exact processPageVenues_seen_mono cfg.keysList (d :: ds) seen _ (hin w hw)
                        · exact processPageVenues_accepted_in_seen cfg.keysList (d :: ds) seen w hw
                      · refine List.pairwise_append.mpr ⟨hacc,
                          processPageVenues_nodup cfg.keysList (d :: ds) seen, ?_⟩
                        intro a ha b hb heq
                        have hbfresh := processPageVenues_accepted_fresh cfg.keysList (d :: ds) seen b hb
                        exact hbfresh (heq ▸ hin a ha)

theorem limitHit_false_le {cfg : CrawlConfig} {n p : Nat}
    (huse : cfg.usePageLimit = true) (hmax : cfg.maxPages = some p) (hp : 0 < p)
    (hl : limitHit cfg n = false) : n ≤ p := by
  simp only [limitHit, huse, hmax, Bool.true_and, Bool.and_eq_false_iff] at hl
  rcases hl with hl | hl
  · simp at hl; omega
  · simp at hl; omega

theorem crawlLoop_fetched_le (cfg : CrawlConfig) (pages : Nat → PageFetch) (p : Nat)
    (huse : cfg.usePageLimit = true) (hmax : cfg.maxPages = some p) (hp : 0 < p) :
    ∀ fuel n : Nat, ∀ acc : List Venue, ∀ seen : List String,
      ∀ i ∈ (crawlLoop cfg pages fuel n acc seen).fetched, i ≤ p := by
  intro fuel
  induction fuel with
  | zero => intro n acc seen i hi; simp [crawlLoop] at hi
  | succ fuel ih =>
      intro n acc seen i hi
      simp only [crawlLoop] at hi
      cases hl : limitHit cfg n with
      | true => rw [hl] at hi; simp at hi
      | false =>
          have hnp : n ≤ p := limitHit_false_le huse hmax hp hl
          rw [hl] at hi
          simp only [Bool.false_eq_true, if_false] at hi
          cases hpg : pages n with
          | fetchFail => rw [hpg] at hi; simp at hi; omega
          | extractFail => rw [hpg] at hi; simp at hi; omega
          | parseFail => rw [hpg] at hi; simp at hi; omega
          | parsed data =>
              rw [hpg] at hi
              cases data with
              | nil => simp at hi; omega
              | cons d ds =>
                  simp only at hi
                  cases hie : (processPageVenues cfg.keysList (d :: ds) seen).1.isEmpty with
                  | true => rw [hie] at hi; simp at hi; omega
                  | false =>
                      rw [hie] at hi
                      simp only [Bool.false_eq_true, if_false, List.mem_cons] at hi
                      rcases hi with rfl | hi
                      · exact hnp
                      · exact ih (n + 1) _ _ i hi

theorem crawlLoop_oracle_agree (cfg : CrawlConfig) (pages pages' : Nat → PageFetch) (p : Nat)
    (huse : cfg.usePageLimit = true) (hmax : cfg.maxPages = some p) (hp : 0 < p)
    (hag : ∀ k, k ≤ p → pages k = pages' k) :
    ∀ fuel n : Nat, ∀ acc : List Venue, ∀ seen : List String,
      crawlLoop cfg pages fuel n acc seen = crawlLoop cfg pages' fuel n acc seen := by
  intro fuel
  induction fuel with
  | zero => intro n acc seen; rfl
  | succ fuel ih =>
      intro n acc seen
      simp only [crawlLoop]
      cases hl : limitHit cfg n with
      | true => simp
      | false =>
          have hnp : n ≤ p := limitHit_false_le huse hmax hp hl
          simp only [Bool.false_eq_true, if_false]
          rw [← hag n hnp]
          cases hpg : pages n with
          | fetchFail => rfl
          | extractFail => rfl
          | parseFail => rfl
          | parsed data =>
              cases data with
              | nil => rfl
              | cons d ds =>
                  simp only
                  rw [ih (n + 1) (acc ++ (processPageVenues cfg.keysList (d :: ds) seen).1)
                    (processPageVenues cfg.keysList (d :: ds) seen).2]

/-! ## The claims -/

/-- Candidate records differing only in whitespace and case of `title`. -/
def cexWhitespaceV1 : Venue := [("title", .str "Honda Civic")]

def cexWhitespaceV2 : Venue := [("title", .str "hondacivic")]

/-- Claim C1, counterexample: the resolver's priority chain collapses the two
candidates (differing only in whitespace/case of `title`) to one composite
identity, yet the orchestrator's per-page loop accepts both of them — so the
identity the loop checks against the seen set is not the identity the
Deduplication Key Resolver produces, and the second candidate is not
rejected. -/
theorem loop_identity_differs_from_resolver :
    identityOf cexWhitespaceV1 = identityOf cexWhitespaceV2 ∧
      (processPageVenues ["title"] [cexWhitespaceV1, cexWhitespaceV2] []).1 =
        [cexWhitespaceV1, cexWhitespaceV2] :=
  ⟨by decide, by decide⟩

/-- Claim C1, amended: the identity the orchestrator's loop checks and
inserts is `str(candidate)` — the resolver's absolute fallback, not its
priority chain (the loop never calls `is_duplicate_venue`): the identities
inserted into the run's seen set are exactly the full string forms of the
accepted records; candidates differing only in whitespace or case of
`title` get the same resolver identity but distinct loop identities, and
both are accepted. -/
theorem loop_dedup_identity_is_full_string :
    (∀ (keys : List String) (data : List Venue) (seen : List String),
        (processPageVenues keys data seen).2 =
          ((processPageVenues keys data seen).1.map pyReprVenue).reverse ++ seen) ∧
      identityOf cexWhitespaceV1 = identityOf cexWhitespaceV2 ∧
      pyReprVenue cexWhitespaceV1 ≠ pyReprVenue cexWhitespaceV2 ∧
      (processPageVenues ["title"] [cexWhitespaceV1, cexWhitespaceV2] []).1 =
        [cexWhitespaceV1, cexWhitespaceV2] := by
  refine ⟨?_, by decide, by decide, by decide⟩
  intro keys data
  induction data with
  | nil => intro seen; rfl
  | cons v rest ih =>
      intro seen
      simp only [processPageVenues]
      cases hc : isCompleteTruthy keys (stripFalseError v) with
      | false =>
          simp only [Bool.false_eq_true, if_false]
          exact ih seen
      | true =>
          simp only [if_true]
          cases hm : seen.contains (pyReprVenue (stripFalseError v)) with
          | true =>
              simp only [if_true]
              exact ih seen
          | false =>
              simp only [Bool.false_eq_true, if_false]
              rw [ih (pyReprVenue (stripFalseError v) :: seen)]
              simp [List.reverse_cons, List.append_assoc]

/-- Claim C2: the Deduplication Key Resolver computes its identity by the
claimed priority chain — non-empty `listing_id` first, then the image-URL
token, then the normalized composite key, then the full string form — and
(on schema-shaped records, whose `listing_id` is a string or null) always
yields a string. -/
theorem dedup_key_priority_chain (v : Venue) (h : listingStrOrNone v = true) :
    identityOf v = .str (claimPriorityChain v) := by
  simp only [identityOf, claimPriorityChain, claimImageToken_eq, claimComposite_eq]
  cases hv : vget v "listing_id" with
  | none =>
      simp only [hv, Option.getD]
      cases himg : imageUrlToken v with
      | some t => simp [pyTruthy, himg]
      | none => cases hc : (compositeKey v).isEmpty <;> simp [pyTruthy, himg, hc]
  | some x =>
      cases x with
      | str s =>
          cases hs : s.isEmpty with
          | true =>
              cases himg : imageUrlToken v with
              | some t => simp [hv, pyTruthy, hs, himg]
              | none =>
                  cases hc : (compositeKey v).isEmpty <;>
                    simp [hv, pyTruthy, hs, himg, hc]
          | false => simp [hv, pyTruthy, hs]
      | none =>
          cases himg : imageUrlToken v with
          | some t => simp [hv, pyTruthy, himg]
          | none =>
              cases hc : (compositeKey v).isEmpty <;>
                simp [hv, pyTruthy, himg, hc]
      | bool b => simp [listingStrOrNone, hv] at h
      | int n => simp [listingStrOrNone, hv] at h

/-- Concrete record exercising branch 2 (image-URL token) of the chain. -/
def imgVenueW : Venue :=
  [("image_url", .str "https://img.oto.com/cars/8231abc.jpg"), ("title", .str "Avanza")]

theorem dedup_key_priority_chain_witness :
    listingStrOrNone imgVenueW = true ∧
      identityOf imgVenueW = .str (claimPriorityChain imgVenueW) :=
  ⟨by decide, dedup_key_priority_chain imgVenueW (by decide)⟩

/-- Claim C3: every record the orchestrator accepts contains, for every name
in the required-field list, that key with a truthy value (a candidate
failing this is dropped and never appended). -/
theorem accepted_records_complete (cfg : CrawlConfig) (pages : Nat → PageFetch) (fuel : Nat) :
    ∀ v ∈ (crawlTop cfg pages fuel).venues, isCompleteTruthy cfg.keysList v = true :=
  crawlLoop_venues_complete cfg pages fuel 1 [] [] (by simp)

def cfgW3 : CrawlConfig := ⟨["title"], false, Option.none⟩

def pagesW3 : Nat → PageFetch :=
  fun n => if n == 1 then .parsed [[("title", .str "Jazz")]] else .fetchFail

theorem accepted_records_complete_witness :
    isCompleteTruthy cfgW3.keysList [("title", PyVal.str "Jazz")] = true :=
  accepted_records_complete cfgW3 pagesW3 3 [("title", PyVal.str "Jazz")] (by decide)

/-- Claim C5, counterexample: the resolver function `is_duplicate_venue` does
not leave the seen-identity set unchanged — called on a fresh set it inserts
the computed identity (the source's `seen_ids.add`), so the check-then-insert
lives inside the resolver, not only in the orchestrator (which in fact never
calls the resolver). -/
theorem resolver_mutates_seen_set :
    (is_duplicate_venue [("listing_id", PyVal.str "L77")] []).2 ≠ ([] : List PyVal) := by
  decide

/-- Claim C5, amended: the identity computation (`identityOf`, lines 29-57 of
the source) is a pure function of the candidate, but `is_duplicate_venue`
itself performs the check-then-insert: it returns the set unchanged exactly
when the identity is already present, and otherwise returns the set extended
with the identity. -/
theorem resolver_performs_check_then_insert (v : Venue) (seen : List PyVal) :
    is_duplicate_venue v seen =
      if seen.contains (identityOf v) then (true, seen)
      else (false, identityOf v :: seen) :=
  is_duplicate_venue_eq_check_insert v seen

/-- Claim C7: a page whose parsed payload is the empty list stops the run
with reason `no-candidates`, returning exactly the previously accumulated
records, unchanged, as a clean value (no exception path exists in the
model). -/
theorem empty_page_stops_no_candidates (cfg : CrawlConfig) (pages : Nat → PageFetch)
    (fuel n : Nat) (acc : List Venue) (seen : List String)
    (hlim : limitHit cfg n = false) (hp : pages n = .parsed []) :
    crawlLoop cfg pages (fuel + 1) n acc seen = ⟨acc, .noCandidates, [n], 0⟩ := by
  simp [crawlLoop, hlim, hp]

def cfgW7 : CrawlConfig := ⟨["title"], false, Option.none⟩

def prevW7 : Venue := [("title", PyVal.str "kept")]

theorem empty_page_stops_witness :
    limitHit cfgW7 1 = false ∧
      crawlLoop cfgW7 (fun _ => .parsed []) 1 1 [prevW7] ["id0"] =
        ⟨[prevW7], .noCandidates, [1], 0⟩ :=
  ⟨by decide,
    empty_page_stops_no_candidates cfgW7 (fun _ => .parsed []) 0 1 [prevW7] ["id0"]
      (by decide) rfl⟩

/-- Claim C8: with the page limit enabled and set to a positive `p`, the loop
never fetches a page with index greater than `p`, and its entire outcome is
unchanged under any replacement of the oracle beyond page `p` (page `p + 1`'s
result is never consulted). -/
theorem page_limit_bounds_fetches (cfg : CrawlConfig) (pages : Nat → PageFetch)
    (fuel n : Nat) (acc : List Venue) (seen : List String) (p : Nat)
    (huse : cfg.usePageLimit = true) (hmax : cfg.maxPages = some p) (hp : 0 < p) :
    (∀ i ∈ (crawlLoop cfg pages fuel n acc seen).fetched, i ≤ p) ∧
      ∀ pages' : Nat → PageFetch, (∀ k, k ≤ p → pages k = pages' k) →
        crawlLoop cfg pages fuel n acc seen = crawlLoop cfg pages' fuel n acc seen :=
  ⟨crawlLoop_fetched_le cfg pages p huse hmax hp fuel n acc seen,
    fun pages' hag => crawlLoop_oracle_agree cfg pages pages' p huse hmax hp hag fuel n acc seen⟩

def cfgW8 : CrawlConfig := ⟨["title"], true, some 1⟩

def pagesW8 : Nat → PageFetch := fun _ => .parsed [[("title", PyVal.str "t")]]

theorem page_limit_bounds_fetches_witness : 0 < 1 ∧ 1 ≤ 1 :=
  ⟨by decide,
    (page_limit_bounds_fetches cfgW8 pagesW8 5 1 [] [] 1 rfl rfl (by decide)).1 1 (by decide)⟩

/-- Claim C9: over a whole run, the number of accepted records never exceeds
the total number of candidate records seen across all parsed pages, and no
two accepted records share a deduplication identity (the `str(venue)`
identity the loop checks and inserts). -/
theorem crawl_dedup_monotonicity (cfg : CrawlConfig) (pages : Nat → PageFetch) (fuel : Nat) :
    (crawlTop cfg pages fuel).venues.length ≤ (crawlTop cfg pages fuel).candTotal ∧
      List.Pairwise (fun a b => pyReprVenue a ≠ pyReprVenue b)
        (crawlTop cfg pages fuel).venues := by
  constructor
  · simpa using crawlLoop_length cfg pages fuel 1 [] []
  · exact crawlLoop_nodup cfg pages fuel 1 [] [] (by simp) (by simp)

/-- Claim C10: an `error` marker equal to `True` is neither stripped nor a
ground for rejection — only `error == False` is removed — so a `True`-marked
candidate passes through the same completeness and dedup checks and, when
accepted, is appended with its `error: True` entry retained. -/
theorem error_true_marker_kept (keys : List String) (seen : List String) (v : Venue)
    (htrue : vget v "error" = some (.bool true)) :
    stripFalseError v = v ∧
      (isCompleteTruthy keys v = true → seen.contains (pyReprVenue v) = false →
        (processPageVenues keys [v] seen).1 = [v]) := by
  have hstrip : stripFalseError v = v := by
    unfold stripFalseError
    simp [htrue]
  refine ⟨hstrip, fun hc hm => ?_⟩
  simp only [processPageVenues, hstrip, hc, hm]
  simp

def vErrW : Venue := [("title", PyVal.str "t"), ("error", PyVal.bool true)]

theorem error_true_marker_kept_witness :
    vget vErrW "error" = some (.bool true) ∧ stripFalseError vErrW = vErrW ∧
      (processPageVenues ["title"] [vErrW] []).1 = [vErrW] :=
  ⟨by decide, (error_true_marker_kept ["title"] [] vErrW (by decide)).1,
    (error_true_marker_kept ["title"] [] vErrW (by decide)).2 (by decide) (by decide)⟩

/-- Claim C4, counterexample: for `.product-item-container-wrapper` a primary
keyword does match — "product" is a key of `KEYWORD_SYNONYMS` — so the
synonym override fires and the output is the rendered synonym set
(`item`, `prd`, `product-card`), not a generic deconstruction with fragments
for "product", "item" and "container". -/
theorem product_selector_counterexample :
    ((allKeywordsRaw ".product-item-container-wrapper").any
        (fun k => (List.lookup (pyLower k) KEYWORD_SYNONYMS).isSome)) = true ∧
      generate_flexible_selector ".product-item-container-wrapper" =
        "[class*='item'], [class*='prd'], [class*='product-card']" :=
  ⟨by decide, by decide⟩

/-- Claim C4, amended: for `.product-item-container-wrapper` the primary
keyword "product" matches, the synonym union is `item`, `product-card`,
`prd`, and the output is exactly their sorted rendering — generic
deconstruction is bypassed (and would anyway have kept only "product" and
"item", dropping "container" and "wrapper" as stopwords). -/
theorem product_selector_synonym_override :
    primarySynonymsFound ".product-item-container-wrapper" =
        ["item", "product-card", "prd"] ∧
      (allKeywordsRaw ".product-item-container-wrapper").filter keepGenericKeyword =
        ["product", "item"] ∧
      generate_flexible_selector ".product-item-container-wrapper" =
        "[class*='item'], [class*='prd'], [class*='product-card']" :=
  ⟨by decide, by decide, by decide⟩

/-! ## Sorting lemmas for the synthesizer's output -/

theorem lexLeb_total (a : List Char) : ∀ b : List Char, lexLeb a b = true ∨ lexLeb b a = true := by
  induction a with
  | nil => intro b; left; rfl
  | cons x xs ih =>
      intro b
      cases b with
      | nil => right; rfl
      | cons y ys =>
          simp only [lexLeb]
          rcases Nat.lt_trichotomy x.toNat y.toNat with h | h | h
          · left; rw [if_pos h]
          · have h1 : ¬ x.toNat < y.toNat := by omega
            have h2 : ¬ y.toNat < x.toNat := by omega
            rw [if_neg h1, if_neg h2, if_neg h2, if_neg h1]
            exact ih ys
          · right; rw [if_pos h]

theorem lexLeb_trans : ∀ {a b c : List Char},
    lexLeb a b = true → lexLeb b c = true → lexLeb a c = true := by
  intro a
  induction a with
  | nil => intro b c _ _; rfl
  | cons x xs ih =>
      intro b c h1 h2
      cases b with
      | nil => exact absurd h1 (by simp [lexLeb])
      | cons y ys =>
          cases c with
          | nil => exact absurd h2 (by simp [lexLeb])
          | cons z zs =>
              simp only [lexLeb] at h1 h2 ⊢
              rcases Nat.lt_trichotomy x.toNat y.toNat with hxy | hxy | hxy
              · rcases Nat.lt_trichotomy y.toNat z.toNat with hyz | hyz | hyz
                · rw [if_pos (by omega)]
                · rw [if_pos (by omega)]
                · rw [if_neg (by omega), if_pos hyz] at h2
                  exact absurd h2 (by simp)
              · rw [if_neg (by omega), if_neg (by omega)] at h1
                rcases Nat.lt_trichotomy y.toNat z.toNat with hyz | hyz | hyz
                · rw [if_pos (by omega)]
                · rw [if_neg (by omega), if_neg (by omega)] at h2
                  rw [if_neg (by omega), if_neg (by omega)]
                  exact ih h1 h2
                · rw [if_neg (by omega), if_pos hyz] at h2
                  exact absurd h2 (by simp)
              · rw [if_neg (by omega), if_pos hxy] at h1
                exact absurd h1 (by simp)

theorem strLeb_total (a b : String) : strLeb a b = true ∨ strLeb b a = true :=
  lexLeb_total a.toList b.toList

theorem strLeb_trans {a b c : String} (h1 : strLeb a b = true) (h2 : strLeb b c = true) :
    strLeb a c = true :=
  lexLeb_trans h1 h2

theorem insertSorted_perm (s : String) (l : List String) :
    List.Perm (insertSorted s l) (s :: l) := by
  induction l with
  | nil => exact List.Perm.refl _
  | cons t ts ih =>
      simp only [insertSorted]
      cases hb : strLeb s t with
      | true => rw [if_pos rfl]
      | false =>
          rw [if_neg (by simp)]
          exact (List.Perm.cons t ih).trans (List.Perm.swap s t ts)

theorem sortStrings_perm (l : List String) : List.Perm (sortStrings l) l := by
  induction l with
  | nil => exact List.Perm.refl _
  | cons s ss ih =>
      simp only [sortStrings]
      exact (insertSorted_perm s (sortStrings ss)).trans (ih.cons s)

theorem insertSorted_pairwise (s : String) (l : List String)
    (h : List.Pairwise (fun a b => strLeb a b = true) l) :
    List.Pairwise (fun a b => strLeb a b = true) (insertSorted s l) := by
  induction l with
  | nil => simp [insertSorted]
  | cons t ts ih =>
      rcases List.pairwise_cons.mp h with ⟨ht, hts⟩
      simp only [insertSorted]
      cases hb : strLeb s t with
      | true =>
          rw [if_pos rfl]
          refine List.pairwise_cons.mpr ⟨?_, h⟩
          intro x hx
          rcases List.mem_cons.mp hx with rfl | hx
          · exact hb
          · exact strLeb_trans hb (ht x hx)
      | false =>
          rw [if_neg (by simp)]
          refine List.pairwise_cons.mpr ⟨?_, ih hts⟩
          intro x hx
          have hx' := (insertSorted_perm s ts).mem_iff.mp hx
          rcases List.mem_cons.mp hx' with rfl | hx'
          · rcases strLeb_total t x with hts2 | hst
            · exact hts2
            · rw [hst] at hb; exact absurd hb (by simp)
          · exact ht x hx'

theorem sortStrings_pairwise (l : List String) :
    List.Pairwise (fun a b => strLeb a b = true) (sortStrings l) := by
  induction l with
  | nil => simp [sortStrings]
  | cons s ss ih =>
      simp only [sortStrings]
      exact insertSorted_pairwise s (sortStrings ss) ih

theorem renderFrag_length (kw : String) : (renderFrag kw).length = 9 + kw.length + 2 := by
  have h9 : ("[class*='" : String).length = 9 := rfl
  have h2 : ("']" : String).length = 2 := rfl
  simp [renderFrag, String.length_append, h9, h2]

theorem joinSep_length_head (sep f : String) (fs : List String) :
    f.length ≤ (joinSep sep (f :: fs)).length := by
  cases fs with
  | nil => simp [joinSep]
  | cons g gs =>
      simp only [joinSep, String.length_append]
      omega


/-- Branch 1 of `generate_flexible_selector`: blank input. -/
theorem gfs_blank (raw : String) (h : raw.toList.all isPySpace = true) :
    generate_flexible_selector raw = "" := by
  unfold generate_flexible_selector
  rw [h]
  rfl

/-- Branch 2: no class-bearing fragment. -/
theorem gfs_no_classes (raw : String) (hws : raw.toList.all isPySpace = false)
    (hcs : classStrings raw = []) : generate_flexible_selector raw = raw := by
  unfold generate_flexible_selector
  rw [hws, if_neg (by simp), hcs]
  rfl

/-- Branch 3: classes found but no keyword survives. -/
theorem gfs_no_final (raw : String) (hws : raw.toList.all isPySpace = false)
    (hcsb : (classStrings raw).isEmpty = false) (hfs : finalSelectors raw = []) :
    generate_flexible_selector raw = raw := by
  unfold generate_flexible_selector
  rw [hws, if_neg (by simp), hcsb, if_neg (by simp), hfs]
  rfl

/-- Branch 4: synthesis succeeds. -/
theorem gfs_eq_join (raw : String) (hws : raw.toList.all isPySpace = false)
    (hcs : classStrings raw ≠ []) (hfs : finalSelectors raw ≠ []) :
    generate_flexible_selector raw =
      joinSep ", " (sortStrings (((finalSelectors raw).map renderFrag).dedup)) := by
  have hcsb : (classStrings raw).isEmpty = false := by
    cases h' : classStrings raw with
    | nil => exact absurd h' hcs
    | cons a l => rfl
  have hfsb : (finalSelectors raw).isEmpty = false := by
    cases h' : finalSelectors raw with
    | nil => exact absurd h' hfs
    | cons a l => rfl
  unfold generate_flexible_selector
  rw [hws, if_neg (by simp), hcsb, if_neg (by simp), hfsb, if_neg (by simp)]

theorem mem_sorted_output {raw kw : String} (hkw : kw ∈ finalSelectors raw) :
    renderFrag kw ∈ sortStrings (((finalSelectors raw).map renderFrag).dedup) :=
  (sortStrings_perm _).mem_iff.mpr
    (List.mem_dedup.mpr (List.mem_map.mpr ⟨kw, hkw, rfl⟩))

theorem sorted_output_mem {raw f : String}
    (hf : f ∈ sortStrings (((finalSelectors raw).map renderFrag).dedup)) :
    ∃ kw ∈ finalSelectors raw, f = renderFrag kw := by
  have h1 := List.mem_dedup.mp ((sortStrings_perm _).mem_iff.mp hf)
  rcases List.mem_map.mp h1 with ⟨kw, hkw, heq⟩
  exact ⟨kw, hkw, heq.symm⟩

/-- Claim C6: the synthesizer is total and shape-correct — empty or
whitespace-only input yields `""`; input with no class-bearing fragment is
returned unchanged; for input with at least one class token the result is
non-empty, and it is either the original selector (when no keyword survives)
or a sorted, duplicate-free, comma-joined list of `[class*='kw']` fragments
built from the surviving keywords. -/
theorem synthesizer_total_and_shape (raw : String) :
    (raw.toList.all isPySpace = true → generate_flexible_selector raw = "") ∧
      (raw.toList.all isPySpace = false → classStrings raw = [] →
        generate_flexible_selector raw = raw) ∧
      (raw.toList.all isPySpace = false → classStrings raw ≠ [] →
        generate_flexible_selector raw ≠ "" ∧
          (finalSelectors raw = [] → generate_flexible_selector raw = raw) ∧
          (finalSelectors raw ≠ [] → ∃ frags : List String, frags ≠ [] ∧
            List.Pairwise (fun a b => strLeb a b = true) frags ∧ frags.Nodup ∧
            (∀ f ∈ frags, ∃ kw ∈ finalSelectors raw, f = renderFrag kw) ∧
            generate_flexible_selector raw = joinSep ", " frags)) := by
  have hraw_of_ws : raw.toList.all isPySpace = false → raw ≠ "" := by
    intro hws h0
    rw [h0] at hws
    exact absurd hws (by decide)
  refine ⟨fun hws => gfs_blank raw hws, fun hws hcs => gfs_no_classes raw hws hcs,
    fun hws hcs => ⟨?_, fun hfs => ?_, fun hfs => ?_⟩⟩
  · -- non-empty output
    cases hfs : finalSelectors raw with
    | nil =>
        have hcsb : (classStrings raw).isEmpty = false := by
          cases h' : classStrings raw with
          | nil => exact absurd h' hcs
          | cons a l => rfl
        rw [gfs_no_final raw hws hcsb hfs]
        exact hraw_of_ws hws
    | cons k ks =>
        have hfs' : finalSelectors raw ≠ [] := by rw [hfs]; simp
        rw [gfs_eq_join raw hws hcs hfs']
        have hmem : renderFrag k ∈ sortStrings (((finalSelectors raw).map renderFrag).dedup) :=
          mem_sorted_output (by rw [hfs]; exact List.mem_cons_self _ _)
        cases hL : sortStrings (((finalSelectors raw).map renderFrag).dedup) with
        | nil => rw [hL] at hmem; exact absurd hmem (by simp)
        | cons f0 fs0 =>
            have hf0 : ∃ kw ∈ finalSelectors raw, f0 = renderFrag kw :=
              sorted_output_mem (by rw [hL]; exact List.mem_cons_self _ _)
            rcases hf0 with ⟨kw, _, hf0eq⟩
            intro hjoin
            have hlen := joinSep_length_head ", " f0 fs0
            rw [hjoin] at hlen
            have hz : ("" : String).length = 0 := rfl
            rw [hz] at hlen
            rw [hf0eq, renderFrag_length] at hlen
            omega
  · -- no surviving keyword: original returned
    have hcsb : (classStrings raw).isEmpty = false := by
      cases h' : classStrings raw with
      | nil => exact absurd h' hcs
      | cons a l => rfl
    exact gfs_no_final raw hws hcsb hfs
  · -- synthesis succeeded: sorted, nodup, fragment-only, joined
    refine ⟨sortStrings (((finalSelectors raw).map renderFrag).dedup), ?_, ?_, ?_, ?_, ?_⟩
    · rcases List.exists_mem_of_ne_nil _ hfs with ⟨k, hk⟩
      exact List.ne_nil_of_mem (mem_sorted_output hk)
    · exact sortStrings_pairwise _
    · exact (sortStrings_perm _).nodup_iff.mpr (List.nodup_dedup _)
    · intro f hf; exact sorted_output_mem hf
    · exact gfs_eq_join raw hws hcs hfs

theorem synthesizer_total_and_shape_witness :
    (".abcd").toList.all isPySpace = false ∧ classStrings ".abcd" ≠ [] ∧
      generate_flexible_selector ".abcd" ≠ "" :=
  ⟨by decide, by decide,
    ((synthesizer_total_and_shape ".abcd").2.2 (by decide) (by decide)).1⟩
